import Mathlib

/-!
Shallow embedding of `torrent_gui.py` (Syrent-Client-Prototype).

Each definition below is translated from a named function of the source file;
the doc comments cite the functions.  Qt and asyncio plumbing is modelled by
explicit data: the tri-state file tree of `TorrentAddingDialog` becomes a
mutual inductive tree, the torrent list of `MainWindow` becomes a list of
item records, the coroutine dispatch of `_control_action_triggered` becomes a
function on outcome values, `main`'s observable effects become a trace, and
`ControlManagerThread.stop` under two concurrent callers becomes an explicit
interleaved transition system.
-/

/-- Qt's tri-state check state (`Qt.Unchecked` / `Qt.PartiallyChecked` /
`Qt.Checked`). -/
inductive CheckState where
  | unchecked
  | partiallyChecked
  | checked
deriving DecidableEq, Repr

mutual
/-- A node of the file-selection tree built by
`TorrentAddingDialog._traverse_file_tree`: a leaf carries a file length
(`FileInfo.length`), an interior node carries its children; every node has a
current check state (column 0 of the `QTreeWidgetItem`). -/
inductive TreeItem where
  | leaf (name : String) (length : Nat) (state : CheckState)
  | interior (name : String) (state : CheckState) (children : Forest)

/-- The list of children of an interior `TreeItem`. -/
inductive Forest where
  | nil
  | cons (hd : TreeItem) (tl : Forest)
end

/-- Whether a forest is empty. -/
def Forest.isNil : Forest → Bool
  | .nil => true
  | .cons _ _ => false

/-- The check state stored at a node (`item.checkState(0)`). -/
def stateOf : TreeItem → CheckState
  | .leaf _ _ st => st
  | .interior _ st _ => st

/-- Whether some immediate child has the given check state: the
`has_checked_children` / `has_partially_checked_children` /
`has_unchecked_children` flags of `_update_checkboxes` (lines 154-164). -/
def hasState (s : CheckState) : Forest → Bool
  | .nil => false
  | .cons t ts => stateOf t == s || hasState s ts

/-- The recomputation of an ancestor's state from its immediate children in
`_update_checkboxes` (lines 166-171): checked when no partially-checked and
no unchecked child, else partially checked when some checked or
partially-checked child, else unchecked. -/
def deriveState (cs : Forest) : CheckState :=
  if !hasState .partiallyChecked cs && !hasState .unchecked cs then .checked
  else if hasState .checked cs || hasState .partiallyChecked cs then .partiallyChecked
  else .unchecked

/-- Whether every immediate child has the given state. -/
def allChildrenState (s : CheckState) : Forest → Bool
  | .nil => true
  | .cons t ts => stateOf t == s && allChildrenState s ts

/-- Modelled from the spec: the "pure function of its children's states" of
spec section 3 — checked iff all children checked, unchecked iff all children
unchecked, partial otherwise.  Kept separate from `deriveState` (which is
translated from the code) so that the two can be compared. -/
def specDerivedState (cs : Forest) : CheckState :=
  if allChildrenState .checked cs then .checked
  else if allChildrenState .unchecked cs then .unchecked
  else .partiallyChecked

mutual
/-- Set every node of a subtree, the node itself included, to one state.
`_set_check_state_to_tree` sets the strict descendants of the clicked item;
the clicked item itself already carries the new state when the `itemClicked`
signal fires, so the whole effect on the clicked subtree is this function. -/
def setAll (s : CheckState) : TreeItem → TreeItem
  | .leaf n l _ => .leaf n l s
  | .interior n _ cs => .interior n s (setAllF s cs)

/-- Forest version of `setAll`. -/
def setAllF (s : CheckState) : Forest → Forest
  | .nil => .nil
  | .cons t ts => .cons (setAll s t) (setAllF s ts)
end

mutual
/-- Every node of the subtree (leaves and interiors) has the given state. -/
def allState (s : CheckState) : TreeItem → Bool
  | .leaf _ _ st => st == s
  | .interior _ st cs => st == s && allStateF s cs

/-- Forest version of `allState`. -/
def allStateF (s : CheckState) : Forest → Bool
  | .nil => true
  | .cons t ts => allState s t && allStateF s ts
end

mutual
/-- Every leaf of the subtree has the given state (interior states free). -/
def allLeavesState (s : CheckState) : TreeItem → Bool
  | .leaf _ _ st => st == s
  | .interior _ _ cs => allLeavesStateF s cs

/-- Forest version of `allLeavesState`. -/
def allLeavesStateF (s : CheckState) : Forest → Bool
  | .nil => true
  | .cons t ts => allLeavesState s t && allLeavesStateF s ts
end

mutual
/-- The code-level invariant: every interior node's state equals
`deriveState` of its children, as recomputed by `_update_checkboxes`. -/
def consistent : TreeItem → Bool
  | .leaf _ _ _ => true
  | .interior _ st cs => st == deriveState cs && consistentF cs

/-- Forest version of `consistent`. -/
def consistentF : Forest → Bool
  | .nil => true
  | .cons t ts => consistent t && consistentF ts
end

mutual
/-- The spec-level invariant: every interior node's state equals the pure
function `specDerivedState` of its children's states. -/
def consistentSpec : TreeItem → Bool
  | .leaf _ _ _ => true
  | .interior _ st cs => st == specDerivedState cs && consistentSpecF cs

/-- Forest version of `consistentSpec`. -/
def consistentSpecF : Forest → Bool
  | .nil => true
  | .cons t ts => consistentSpec t && consistentSpecF ts
end

mutual
/-- Every interior node of the subtree has at least one child.  File trees
built by `_traverse_file_tree` from torrent metadata have this shape: a
directory `FileTreeNode` is a mapping of its entries. -/
def nonEmptyInteriors : TreeItem → Bool
  | .leaf _ _ _ => true
  | .interior _ _ cs => !cs.isNil && nonEmptyInteriorsF cs

/-- Forest version of `nonEmptyInteriors`. -/
def nonEmptyInteriorsF : Forest → Bool
  | .nil => true
  | .cons t ts => nonEmptyInteriors t && nonEmptyInteriorsF ts
end

/-- The i-th child of a forest (`item.child(i)`). -/
def getChildF : Forest → Nat → Option TreeItem
  | .nil, _ => none
  | .cons t _, 0 => some t
  | .cons _ ts, n + 1 => getChildF ts n

/-- Replace the i-th child of a forest. -/
def setChildF : Forest → Nat → TreeItem → Forest
  | .nil, _, _ => .nil
  | .cons _ ts, 0, c => .cons c ts
  | .cons t ts, n + 1, c => .cons t (setChildF ts n c)

/-- `TorrentAddingDialog._update_checkboxes` on the node addressed by a path
of child indices, the clicked item carrying new state `s`: the whole clicked
subtree is forced to `s` (`_set_check_state_to_tree`), then every ancestor up
to the root recomputes its state from its immediate children via
`deriveState` (the `while True` loop over `item.parent()`). -/
def updateCheckboxes : List Nat → CheckState → TreeItem → TreeItem
  | [], s, t => setAll s t
  | _ :: _, _, .leaf n l st => .leaf n l st
  | i :: p, s, .interior n _ cs =>
      match getChildF cs i with
      | none => .interior n (deriveState cs) cs
      | some c =>
          let cs' := setChildF cs i (updateCheckboxes p s c)
          .interior n (deriveState cs') cs'

/-- The subtree addressed by a path of child indices. -/
def subtreeAt : List Nat → TreeItem → Option TreeItem
  | [], t => some t
  | _ :: _, .leaf _ _ _ => none
  | i :: p, .interior _ _ cs =>
      match getChildF cs i with
      | none => none
      | some c => subtreeAt p c

/-- A sequence of `_update_checkboxes` invocations (clicked path, new state),
applied left to right. -/
def applyClicks (ops : List (List Nat × CheckState)) (t : TreeItem) : TreeItem :=
  ops.foldl (fun t op => updateCheckboxes op.1 op.2 t) t

mutual
/-- `TorrentAddingDialog._update_selection_label`'s summary over the file
items: the number of checked leaves and the sum of their lengths. -/
def selectedLeaves : TreeItem → Nat × Nat
  | .leaf _ len st => if st == .checked then (1, len) else (0, 0)
  | .interior _ _ cs => selectedLeavesF cs

/-- Forest version of `selectedLeaves`. -/
def selectedLeavesF : Forest → Nat × Nat
  | .nil => (0, 0)
  | .cons t ts => ((selectedLeaves t).1 + (selectedLeavesF ts).1,
                   (selectedLeaves t).2 + (selectedLeavesF ts).2)
end

mutual
/-- The number of leaves of a subtree. -/
def leafCount : TreeItem → Nat
  | .leaf _ _ _ => 1
  | .interior _ _ cs => leafCountF cs

/-- Forest version of `leafCount`. -/
def leafCountF : Forest → Nat
  | .nil => 0
  | .cons t ts => leafCount t + leafCountF ts
end

mutual
/-- The sum of the leaf lengths of a subtree. -/
def totalSize : TreeItem → Nat
  | .leaf _ len _ => len
  | .interior _ _ cs => totalSizeF cs

/-- Forest version of `totalSize`. -/
def totalSizeF : Forest → Nat
  | .nil => 0
  | .cons t ts => totalSize t + totalSizeF ts
end

/-- The spec's example tree `{ root: { a.txt: 100, dir: { b.txt: 200,
c.txt: 50 } } }` with every node unchecked (children in the sorted order the
dialog displays: `a.txt` before `dir`). -/
def exampleTree : TreeItem :=
  .interior "root" .unchecked
    (.cons (.leaf "a.txt" 100 .unchecked)
      (.cons (.interior "dir" .unchecked
        (.cons (.leaf "b.txt" 200 .unchecked)
          (.cons (.leaf "c.txt" 50 .unchecked) .nil))) .nil))

/-- The example tree after clicking `dir` (path [1]) to checked. -/
def exampleAfterDir : TreeItem := updateCheckboxes [1] .checked exampleTree

/-- The example tree after further clicking `a.txt` (path [0]) to checked. -/
def exampleAfterBoth : TreeItem := updateCheckboxes [0] .checked exampleAfterDir

/-- The fields of `torrent_client.models.TorrentState` that `MainWindow`'s
list logic reads: `info_hash` (opaque identifier, modelled as `Nat`),
`suggested_name` (the sort key) and `paused`. -/
structure TorrentState where
  infoHash : Nat
  suggestedName : String
  paused : Bool
deriving DecidableEq, Repr

/-- A `TorrentListWidgetItem` together with the per-item
`_waiting_control_action` flag. -/
structure TorrentListWidgetItem where
  state : TorrentState
  waiting : Bool
deriving DecidableEq, Repr

/-- The `items_upper` scan of `MainWindow._add_torrent_item` (lines 405-410):
count items until the first whose `suggested_name` is greater than the new
one. -/
def itemsUpper (name : String) : List TorrentListWidgetItem → Nat
  | [] => 0
  | e :: es => if name < e.state.suggestedName then 0 else itemsUpper name es + 1

/-- `QListWidget.insertItem(row, item)`: insert at the given row, appending
when the row is past the end. -/
def insertAt {α : Type} : Nat → α → List α → List α
  | 0, e, l => e :: l
  | _ + 1, e, [] => [e]
  | n + 1, e, x :: xs => x :: insertAt n e xs

/-- `MainWindow._add_torrent_item`: build a fresh widget (its
`_waiting_control_action` starts false), find the insertion row by the
`items_upper` scan and insert there. -/
def addTorrentItem (s : TorrentState) (l : List TorrentListWidgetItem) :
    List TorrentListWidgetItem :=
  insertAt (itemsUpper s.suggestedName l) ⟨s, false⟩ l

/-- `MainWindow._remove_torrent_item`: look the identifier up in
`_torrent_to_item` — a `KeyError` when absent — and remove that item. -/
def removeTorrentItem (h : Nat) (l : List TorrentListWidgetItem) :
    Except String (List TorrentListWidgetItem) :=
  if l.any (fun e => e.state.infoHash == h) then
    .ok (l.eraseP (fun e => e.state.infoHash == h))
  else .error "KeyError"

/-- `MainWindow._update_torrent_item`: return silently when the identifier is
not in `_torrent_to_item`; otherwise clear the waiting flag exactly when the
update's `paused` differs from the displayed state's, then install the new
state. -/
def updateTorrentItem (s : TorrentState) (l : List TorrentListWidgetItem) :
    List TorrentListWidgetItem :=
  if l.any (fun e => e.state.infoHash == s.infoHash) then
    l.map (fun e =>
      if e.state.infoHash == s.infoHash then
        { state := s, waiting := if e.state.paused != s.paused then false else e.waiting }
      else e)
  else l

/-- One path of `MainWindow.add_torrent_files`: when the parsed info hash is
already a key of `_torrent_to_item` a `ValueError('This torrent is already
added')` is raised and reported, leaving the collection untouched; otherwise
the torrent proceeds (the adding dialog and the engine round trip are elided:
the eventual `torrent_added` signal calls `_add_torrent_item`). -/
def addTorrentFile (s : TorrentState) (l : List TorrentListWidgetItem) :
    Option String × List TorrentListWidgetItem :=
  if l.any (fun e => e.state.infoHash == s.infoHash) then
    (some "This torrent is already added", l)
  else (none, addTorrentItem s l)

/-- An operation on the torrent list: an engine `torrent_added` insert or a
`torrent_removed` removal (a failing removal leaves the list as is). -/
inductive CollectionOp where
  | insert (s : TorrentState)
  | remove (h : Nat)

/-- Apply one collection operation. -/
def applyOp (l : List TorrentListWidgetItem) : CollectionOp → List TorrentListWidgetItem
  | .insert s => addTorrentItem s l
  | .remove h =>
      match removeTorrentItem h l with
      | .ok l' => l'
      | .error _ => l

/-- Run a sequence of collection operations from the empty list. -/
def runOps (ops : List CollectionOp) : List TorrentListWidgetItem :=
  ops.foldl applyOp []

/-- `MainWindow._control_action_triggered` over the items (selection given as
a predicate on info hashes): every selected item whose waiting flag is clear
has its action submitted to the loop and its flag set in the same synchronous
step; items with the flag set are skipped.  Returns the submitted targets and
the new item list. -/
def controlActionTriggered (sel : Nat → Bool) :
    List TorrentListWidgetItem → List Nat × List TorrentListWidgetItem
  | [] => ([], [])
  | e :: es =>
      let r := controlActionTriggered sel es
      if sel e.state.infoHash && !e.waiting then
        (e.state.infoHash :: r.1, { e with waiting := true } :: r.2)
      else (r.1, e :: r.2)

/-- What `action(info_hash)` does inside `_invoke_control_action`: succeed,
raise `ValueError` (the engine's invalid-state signal), or raise some other
exception with a name. -/
inductive ActionResult where
  | ok
  | invalidState
  | failure (name : String)
deriving DecidableEq, Repr

/-- How the coroutine dispatched to the loop finishes. -/
inductive CoroutineOutcome where
  | completed
  | raised (name : String)
deriving DecidableEq, Repr

/-- `MainWindow._invoke_control_action`: `except ValueError: pass` swallows
the invalid-state signal; any other exception escapes the coroutine. -/
def invokeControlAction : ActionResult → CoroutineOutcome
  | .ok => .completed
  | .invalidState => .completed
  | .failure n => .raised n

/-- The observable result of one dispatched action: the outcome stored in the
`concurrent.futures.Future` returned by `run_coroutine_threadsafe`, and the
error (if any) that reaches a user-visible dialog. -/
structure DispatchResult where
  futureOutcome : CoroutineOutcome
  foregroundError : Option String
deriving DecidableEq, Repr

/-- The dispatch performed by `_control_action_triggered` for one target:
`run_coroutine_threadsafe` is called and its future is discarded, so no path
connects an exception of the coroutine to `_error_happened` or to any message
box — the foreground error slot is always empty. -/
def controlActionDispatch (r : ActionResult) : DispatchResult :=
  { futureOutcome := invokeControlAction r, foregroundError := none }

/-- The externally observable effects of `main` (lines 557-578), in program
order. -/
inductive MainEvent where
  | showWindow
  | startControlThread
  | probe (ok : Bool)
  | forwardPaths (paths : List String)
  | enterEventLoop
deriving DecidableEq, Repr

/-- The effect trace of `main` given the command-line file names and whether
the `ControlClient` probe of `find_another_daemon` connects: the
`MainWindow` is shown and `control_thread.start()` runs unconditionally;
only then, and only when file names were supplied, `find_another_daemon`
probes, forwards the names on success, and its boolean result is discarded;
the process always proceeds into `app.exec_()`. -/
def mainTrace (filenames : List String) (daemonReachable : Bool) : List MainEvent :=
  [.showWindow, .startControlThread] ++
  (if filenames.isEmpty then []
   else .probe daemonReachable ::
     (if daemonReachable then [.forwardPaths filenames] else [])) ++
  [.enterEventLoop]

/-- The program counter of one caller of `ControlManagerThread.stop`:
about to read `_stopping`; about to set it; about to schedule `async_stop`;
blocked in `wait()`; returned. -/
inductive StopPc where
  | atCheck
  | atSet
  | atTrigger
  | atWait
  | done
deriving DecidableEq, Repr

/-- Shared state of `ControlManagerThread.stop` under two foreground callers
and the loop thread: the `_stopping` flag, whether the shutdown future has
been scheduled, whether the dedicated thread has exited (so `wait()` would
return), and how many shutdown sequences were started.  Each caller has a
program counter and a flag recording whether the thread had already exited at
the moment the caller returned. -/
structure StopSystem where
  stopping : Bool
  triggered : Bool
  threadExited : Bool
  shutdowns : Nat
  pc0 : StopPc
  obs0 : Bool
  pc1 : StopPc
  obs1 : Bool
deriving DecidableEq, Repr

/-- The agents that can take a step: the two callers of `stop()` and the
loop/worker thread that performs the shutdown. -/
inductive StopAgent where
  | callerA
  | callerB
  | loopThread
deriving DecidableEq, Repr

/-- One step of a caller executing `stop()` (lines 536-543): read
`_stopping` and return at once when set; else set it; then schedule the
shutdown (`run_coroutine_threadsafe(self.async_stop(), ...)` plus the
`loop.stop` callback) counting one shutdown sequence; then block in
`self.wait()` until the thread has exited. -/
def stopCallerStep (st : StopSystem) (pc : StopPc) (obs : Bool) :
    StopPc × Bool × StopSystem :=
  match pc with
  | .atCheck =>
      if st.stopping then (.done, st.threadExited, st) else (.atSet, obs, st)
  | .atSet => (.atTrigger, obs, { st with stopping := true })
  | .atTrigger =>
      (.atWait, obs, { st with triggered := true, shutdowns := st.shutdowns + 1 })
  | .atWait => if st.threadExited then (.done, true, st) else (.atWait, obs, st)
  | .done => (.done, obs, st)

/-- One step of the loop thread: once the shutdown is scheduled it runs
`async_stop`, stops the loop and lets `run()` return, after which the
dedicated thread has exited. -/
def stopLoopStep (st : StopSystem) : StopSystem :=
  if st.triggered && !st.threadExited then { st with threadExited := true } else st

/-- One interleaving step by the chosen agent. -/
def stopStep (st : StopSystem) : StopAgent → StopSystem
  | .callerA =>
      let r := stopCallerStep st st.pc0 st.obs0
      { r.2.2 with pc0 := r.1, obs0 := r.2.1 }
  | .callerB =>
      let r := stopCallerStep st st.pc1 st.obs1
      { r.2.2 with pc1 := r.1, obs1 := r.2.1 }
  | .loopThread => stopLoopStep st

/-- Run a schedule of interleaved steps. -/
def runStop (st : StopSystem) (sched : List StopAgent) : StopSystem :=
  sched.foldl stopStep st

/-- Initial state: neither caller has started, the loop is running. -/
def stopStart : StopSystem :=
  { stopping := false, triggered := false, threadExited := false, shutdowns := 0,
    pc0 := .atCheck, obs0 := false, pc1 := .atCheck, obs1 := false }

/-- A stop already in flight: caller A has set `_stopping`, scheduled the one
shutdown sequence and is blocked in `wait()`; caller B is about to make its
second call; the dedicated thread has not yet exited. -/
def stopInFlight : StopSystem :=
  { stopping := true, triggered := true, threadExited := false, shutdowns := 1,
    pc0 := .atWait, obs0 := false, pc1 := .atCheck, obs1 := false }

/-- The invariant holding from `stopInFlight` on: the flag stays set, exactly
one shutdown sequence has been started, caller A is waiting or has returned
having observed the exited thread, and caller B is before its check or has
returned as a no-op. -/
def StopInv (st : StopSystem) : Prop :=
  st.stopping = true ∧ st.triggered = true ∧ st.shutdowns = 1 ∧
    (st.pc0 = StopPc.atWait ∨
      (st.pc0 = StopPc.done ∧ st.obs0 = true ∧ st.threadExited = true)) ∧
    (st.pc1 = StopPc.atCheck ∨ st.pc1 = StopPc.done)

/-! ## Lemmas about the selection tree -/

mutual
theorem allState_setAll (s : CheckState) (t : TreeItem) :
    allState s (setAll s t) = true := by
  cases t with
  | leaf n l st => simp [setAll, allState]
  | interior n st cs => simp [setAll, allState, allStateF_setAllF s cs]

theorem allStateF_setAllF (s : CheckState) (ts : Forest) :
    allStateF s (setAllF s ts) = true := by
  cases ts with
  | nil => simp [setAllF, allStateF]
  | cons t ts => simp [setAllF, allStateF, allState_setAll s t, allStateF_setAllF s ts]
end

theorem setAllF_isNil (s : CheckState) (ts : Forest) :
    (setAllF s ts).isNil = ts.isNil := by
  cases ts <;> simp [setAllF, Forest.isNil]

theorem stateOf_of_allState {s : CheckState} {t : TreeItem}
    (h : allState s t = true) : stateOf t = s := by
  cases t with
  | leaf n l st => simpa [allState, stateOf] using h
  | interior n st cs =>
      simp [allState, stateOf] at h ⊢
      exact h.1

theorem hasState_of_allStateF {s : CheckState} {ts : Forest}
    (h : allStateF s ts = true) (s' : CheckState) :
    hasState s' ts = (s' == s && !ts.isNil) := by
  cases ts with
  | nil => simp [allStateF, hasState, Forest.isNil]
  | cons t ts =>
      simp [allStateF] at h
      have h1 : stateOf t = s := stateOf_of_allState h.1
      have h2 := hasState_of_allStateF h.2 s'
      by_cases hss : s' = s
      · subst hss
        simp [hasState, h1, h2, Forest.isNil]
      · have hb1 : (s == s') = false := beq_eq_false_iff_ne.mpr fun hh => hss hh.symm
        have hb2 : (s' == s) = false := beq_eq_false_iff_ne.mpr hss
        simp [hasState, h1, h2, Forest.isNil, hb1, hb2]

theorem deriveState_of_allStateF {s : CheckState} {ts : Forest}
    (h : allStateF s ts = true) (hne : ts.isNil = false) :
    deriveState ts = s := by
  have hp := hasState_of_allStateF h CheckState.partiallyChecked
  have hu := hasState_of_allStateF h CheckState.unchecked
  have hc := hasState_of_allStateF h CheckState.checked
  cases s <;> simp [deriveState, hp, hu, hc, hne]

mutual
theorem nonEmptyInteriors_setAll (s : CheckState) (t : TreeItem)
    (h : nonEmptyInteriors t = true) : nonEmptyInteriors (setAll s t) = true := by
  cases t with
  | leaf n l st => simp [setAll, nonEmptyInteriors]
  | interior n st cs =>
      simp [nonEmptyInteriors, setAll, setAllF_isNil] at h ⊢
      exact ⟨h.1, nonEmptyInteriorsF_setAllF s cs h.2⟩

theorem nonEmptyInteriorsF_setAllF (s : CheckState) (ts : Forest)
    (h : nonEmptyInteriorsF ts = true) : nonEmptyInteriorsF (setAllF s ts) = true := by
  cases ts with
  | nil => simp [setAllF, nonEmptyInteriorsF]
  | cons t ts =>
      simp [nonEmptyInteriorsF, setAllF] at h ⊢
      exact ⟨nonEmptyInteriors_setAll s t h.1, nonEmptyInteriorsF_setAllF s ts h.2⟩
end

mutual
theorem consistent_setAll (s : CheckState) (t : TreeItem)
    (h : nonEmptyInteriors t = true) : consistent (setAll s t) = true := by
  cases t with
  | leaf n l st => simp [setAll, consistent]
  | interior n st cs =>
      simp [nonEmptyInteriors] at h
      have hall := allStateF_setAllF s cs
      have hnil : (setAllF s cs).isNil = false := by
        rw [setAllF_isNil]
        simpa using h.1
      simp [setAll, consistent, deriveState_of_allStateF hall hnil,
        consistentF_setAllF s cs h.2]

theorem consistentF_setAllF (s : CheckState) (ts : Forest)
    (h : nonEmptyInteriorsF ts = true) : consistentF (setAllF s ts) = true := by
  cases ts with
  | nil => simp [setAllF, consistentF]
  | cons t ts =>
      simp [nonEmptyInteriorsF] at h
      simp [setAllF, consistentF]
      exact ⟨consistent_setAll s t h.1, consistentF_setAllF s ts h.2⟩
end

theorem consistent_of_getChildF {ts : Forest} {i : Nat} {c : TreeItem}
    (h : consistentF ts = true) (hg : getChildF ts i = some c) :
    consistent c = true := by
  cases ts with
  | nil => simp [getChildF] at hg
  | cons t ts =>
      simp [consistentF] at h
      cases i with
      | zero =>
          simp [getChildF] at hg
          subst hg
          exact h.1
      | succ i => exact consistent_of_getChildF h.2 hg

theorem consistentF_setChildF {ts : Forest} {c : TreeItem} (i : Nat)
    (h : consistentF ts = true) (hc : consistent c = true) :
    consistentF (setChildF ts i c) = true := by
  cases ts with
  | nil => simpa [setChildF] using h
  | cons t ts =>
      simp [consistentF] at h
      cases i with
      | zero => simp [setChildF, consistentF, hc, h.2]
      | succ i =>
          simp [setChildF, consistentF, h.1]
          exact consistentF_setChildF i h.2 hc

theorem nonEmpty_of_getChildF {ts : Forest} {i : Nat} {c : TreeItem}
    (h : nonEmptyInteriorsF ts = true) (hg : getChildF ts i = some c) :
    nonEmptyInteriors c = true := by
  cases ts with
  | nil => simp [getChildF] at hg
  | cons t ts =>
      simp [nonEmptyInteriorsF] at h
      cases i with
      | zero =>
          simp [getChildF] at hg
          subst hg
          exact h.1
      | succ i => exact nonEmpty_of_getChildF h.2 hg

theorem nonEmptyF_setChildF {ts : Forest} {c : TreeItem} (i : Nat)
    (h : nonEmptyInteriorsF ts = true) (hc : nonEmptyInteriors c = true) :
    nonEmptyInteriorsF (setChildF ts i c) = true := by
  cases ts with
  | nil => simpa [setChildF] using h
  | cons t ts =>
      simp [nonEmptyInteriorsF] at h
      cases i with
      | zero => simp [setChildF, nonEmptyInteriorsF, hc, h.2]
      | succ i =>
          simp [setChildF, nonEmptyInteriorsF, h.1]
          exact nonEmptyF_setChildF i h.2 hc

theorem setChildF_isNil (ts : Forest) (i : Nat) (c : TreeItem) :
    (setChildF ts i c).isNil = ts.isNil := by
  cases ts <;> cases i <;> simp [setChildF, Forest.isNil]

theorem getChildF_setChildF {ts : Forest} {i : Nat} {c₀ : TreeItem}
    (hg : getChildF ts i = some c₀) (c : TreeItem) :
    getChildF (setChildF ts i c) i = some c := by
  cases ts with
  | nil => simp [getChildF] at hg
  | cons t ts =>
      cases i with
      | zero => simp [setChildF, getChildF]
      | succ i =>
          simp [getChildF] at hg
          simp [setChildF, getChildF, getChildF_setChildF hg c]

theorem setChildF_setChildF (ts : Forest) (i : Nat) (c₁ c₂ : TreeItem) :
    setChildF (setChildF ts i c₁) i c₂ = setChildF ts i c₂ := by
  cases ts with
  | nil => simp [setChildF]
  | cons t ts =>
      cases i with
      | zero => simp [setChildF]
      | succ i => simp [setChildF, setChildF_setChildF ts i c₁ c₂]

theorem setChildF_getChildF {ts : Forest} {i : Nat} {c : TreeItem}
    (hg : getChildF ts i = some c) : setChildF ts i c = ts := by
  cases ts with
  | nil => simp [getChildF] at hg
  | cons t ts =>
      cases i with
      | zero =>
          simp [getChildF] at hg
          simp [setChildF, hg]
      | succ i =>
          simp [getChildF] at hg
          simp [setChildF, setChildF_getChildF hg]

theorem updateCheckboxes_consistent (p : List Nat) (s : CheckState) (t : TreeItem)
    (hc : consistent t = true) (hn : nonEmptyInteriors t = true) :
    consistent (updateCheckboxes p s t) = true := by
  induction p generalizing t with
  | nil => exact consistent_setAll s t hn
  | cons i p ih =>
      cases t with
      | leaf n l st => simpa [updateCheckboxes] using hc
      | interior n st cs =>
          simp [consistent] at hc
          simp [nonEmptyInteriors] at hn
          cases hg : getChildF cs i with
          | none => simp [updateCheckboxes, hg, consistent, hc.2]
          | some c =>
              have hcc : consistent c = true := consistent_of_getChildF hc.2 hg
              have hnc : nonEmptyInteriors c = true := nonEmpty_of_getChildF hn.2 hg
              have hrec := ih c hcc hnc
              simp [updateCheckboxes, hg, consistent]
              exact consistentF_setChildF i hc.2 hrec

theorem updateCheckboxes_nonEmpty (p : List Nat) (s : CheckState) (t : TreeItem)
    (hn : nonEmptyInteriors t = true) :
    nonEmptyInteriors (updateCheckboxes p s t) = true := by
  induction p generalizing t with
  | nil => exact nonEmptyInteriors_setAll s t hn
  | cons i p ih =>
      cases t with
      | leaf n l st => simpa [updateCheckboxes] using hn
      | interior n st cs =>
          simp [nonEmptyInteriors] at hn
          cases hg : getChildF cs i with
          | none => simp [updateCheckboxes, hg, nonEmptyInteriors, hn.1, hn.2]
          | some c =>
              have hnc : nonEmptyInteriors c = true := nonEmpty_of_getChildF hn.2 hg
              have hrec := ih c hnc
              simp [updateCheckboxes, hg, nonEmptyInteriors, setChildF_isNil, hn.1]
              exact nonEmptyF_setChildF i hn.2 hrec

theorem allChildrenState_checked_hasState (ts : Forest) :
    allChildrenState .checked ts =
      (!hasState .partiallyChecked ts && !hasState .unchecked ts) := by
  cases ts with
  | nil => simp [allChildrenState, hasState]
  | cons t ts =>
      have ih := allChildrenState_checked_hasState ts
      simp only [allChildrenState, hasState, ih]
      cases hst : stateOf t <;>
        cases hasState CheckState.partiallyChecked ts <;>
          cases hasState CheckState.unchecked ts <;> decide

theorem allChildrenState_unchecked_hasState (ts : Forest) :
    allChildrenState .unchecked ts =
      (!hasState .partiallyChecked ts && !hasState .checked ts) := by
  cases ts with
  | nil => simp [allChildrenState, hasState]
  | cons t ts =>
      have ih := allChildrenState_unchecked_hasState ts
      simp only [allChildrenState, hasState, ih]
      cases hst : stateOf t <;>
        cases hasState CheckState.partiallyChecked ts <;>
          cases hasState CheckState.checked ts <;> decide

theorem deriveState_eq_spec (ts : Forest) : deriveState ts = specDerivedState ts := by
  rw [deriveState, specDerivedState, allChildrenState_checked_hasState,
    allChildrenState_unchecked_hasState]
  cases hasState .partiallyChecked ts <;> cases hasState .unchecked ts <;>
    cases hasState .checked ts <;> rfl

mutual
theorem consistent_eq_consistentSpec (t : TreeItem) :
    consistent t = consistentSpec t := by
  cases t with
  | leaf n l st => simp [consistent, consistentSpec]
  | interior n st cs =>
      simp [consistent, consistentSpec, deriveState_eq_spec,
        consistentF_eq_consistentSpecF cs]

theorem consistentF_eq_consistentSpecF (ts : Forest) :
    consistentF ts = consistentSpecF ts := by
  cases ts with
  | nil => simp [consistentF, consistentSpecF]
  | cons t ts =>
      simp [consistentF, consistentSpecF, consistent_eq_consistentSpec t,
        consistentF_eq_consistentSpecF ts]
end

mutual
theorem setAll_setAll (s' s : CheckState) (t : TreeItem) :
    setAll s' (setAll s t) = setAll s' t := by
  cases t with
  | leaf n l st => simp [setAll]
  | interior n st cs => simp [setAll, setAllF_setAllF s' s cs]

theorem setAllF_setAllF (s' s : CheckState) (ts : Forest) :
    setAllF s' (setAllF s ts) = setAllF s' ts := by
  cases ts with
  | nil => simp [setAllF]
  | cons t ts => simp [setAllF, setAll_setAll s' s t, setAllF_setAllF s' s ts]
end

mutual
theorem setAll_of_allState {s : CheckState} {t : TreeItem}
    (h : allState s t = true) : setAll s t = t := by
  cases t with
  | leaf n l st =>
      simp [allState] at h
      simp [setAll, h]
  | interior n st cs =>
      simp [allState] at h
      simp [setAll, h.1, setAllF_of_allStateF h.2]

theorem setAllF_of_allStateF {s : CheckState} {ts : Forest}
    (h : allStateF s ts = true) : setAllF s ts = ts := by
  cases ts with
  | nil => simp [setAllF]
  | cons t ts =>
      simp [allStateF] at h
      simp [setAllF, setAll_of_allState h.1, setAllF_of_allStateF h.2]
end

theorem applyClicks_cons (op : List Nat × CheckState)
    (ops : List (List Nat × CheckState)) (t : TreeItem) :
    applyClicks (op :: ops) t = applyClicks ops (updateCheckboxes op.1 op.2 t) := rfl

theorem applyClicks_invariant (ops : List (List Nat × CheckState)) (t : TreeItem)
    (hn : nonEmptyInteriors t = true) (hc : consistent t = true) :
    consistent (applyClicks ops t) = true := by
  induction ops generalizing t with
  | nil => exact hc
  | cons op ops ih =>
      rw [applyClicks_cons]
      exact ih (updateCheckboxes op.1 op.2 t)
        (updateCheckboxes_nonEmpty op.1 op.2 t hn)
        (updateCheckboxes_consistent op.1 op.2 t hc hn)

mutual
theorem selectedLeaves_allChecked {t : TreeItem}
    (h : allLeavesState CheckState.checked t = true) :
    selectedLeaves t = (leafCount t, totalSize t) := by
  cases t with
  | leaf n l st =>
      simp [allLeavesState] at h
      simp [selectedLeaves, leafCount, totalSize, h]
  | interior n st cs =>
      simp [allLeavesState] at h
      simp [selectedLeaves, leafCount, totalSize, selectedLeavesF_allChecked h]

theorem selectedLeavesF_allChecked {ts : Forest}
    (h : allLeavesStateF CheckState.checked ts = true) :
    selectedLeavesF ts = (leafCountF ts, totalSizeF ts) := by
  cases ts with
  | nil => simp [selectedLeavesF, leafCountF, totalSizeF]
  | cons t ts =>
      simp [allLeavesStateF] at h
      simp [selectedLeavesF, leafCountF, totalSizeF,
        selectedLeaves_allChecked h.1, selectedLeavesF_allChecked h.2]
end

mutual
theorem selectedLeaves_allUnchecked {t : TreeItem}
    (h : allLeavesState CheckState.unchecked t = true) :
    selectedLeaves t = (0, 0) := by
  cases t with
  | leaf n l st =>
      simp [allLeavesState] at h
      simp [selectedLeaves, h]
  | interior n st cs =>
      simp [allLeavesState] at h
      simp [selectedLeaves, selectedLeavesF_allUnchecked h]

theorem selectedLeavesF_allUnchecked {ts : Forest}
    (h : allLeavesStateF CheckState.unchecked ts = true) :
    selectedLeavesF ts = (0, 0) := by
  cases ts with
  | nil => simp [selectedLeavesF]
  | cons t ts =>
      simp [allLeavesStateF] at h
      simp [selectedLeavesF, selectedLeaves_allUnchecked h.1,
        selectedLeavesF_allUnchecked h.2]
end

/-! ## Claim theorems for the selection tree -/

/-- C1: for every selection tree (well-formed: every directory node has at
least one child, as trees built by `_traverse_file_tree` do) that satisfies
the derived-state invariant, after any sequence of `_update_checkboxes`
operations every interior node's check state equals the recomputation rule of
the code and, equivalently, the spec's pure function of its immediate
children's states (checked iff all children checked, unchecked iff all
children unchecked, partial otherwise). -/
theorem update_checkboxes_invariant (ops : List (List Nat × CheckState))
    (t : TreeItem) (hn : nonEmptyInteriors t = true) (hc : consistent t = true) :
    consistent (applyClicks ops t) = true ∧
      consistentSpec (applyClicks ops t) = true := by
  have h := applyClicks_invariant ops t hn hc
  exact ⟨h, by rw [← consistent_eq_consistentSpec]; exact h⟩

/-- Witness for C1: the example tree, all unchecked, after checking `dir`
and then unchecking `a.txt`. -/
theorem update_checkboxes_invariant_witness :
    nonEmptyInteriors exampleTree = true ∧ consistent exampleTree = true ∧
      (consistent (applyClicks [([1], CheckState.checked), ([0], CheckState.unchecked)] exampleTree) = true ∧
       consistentSpec (applyClicks [([1], CheckState.checked), ([0], CheckState.unchecked)] exampleTree) = true) :=
  ⟨by decide, by decide,
    update_checkboxes_invariant [([1], CheckState.checked), ([0], CheckState.unchecked)]
      exampleTree (by decide) (by decide)⟩

/-- C4 counterexample: checking and then unchecking a node does NOT restore
the tree when the node's subtree held a mixed selection.  The directory with
one checked and one unchecked file is consistent and partially checked;
clicking it to checked and clicking it again to unchecked leaves every file
unchecked and the directory unchecked, not the original mixed state. -/
theorem check_uncheck_not_roundtrip :
    updateCheckboxes [] CheckState.unchecked (updateCheckboxes [] CheckState.checked
      (TreeItem.interior "dir" CheckState.partiallyChecked
        (.cons (.leaf "b.txt" 200 CheckState.checked)
          (.cons (.leaf "c.txt" 50 CheckState.unchecked) .nil)))) ≠
      TreeItem.interior "dir" CheckState.partiallyChecked
        (.cons (.leaf "b.txt" 200 CheckState.checked)
          (.cons (.leaf "c.txt" 50 CheckState.unchecked) .nil)) := by
  intro h
  exact absurd (congrArg stateOf h) (by decide)

/-- C4 amended: checking a node and then unchecking it restores the tree —
subtree, ancestors and all — provided the addressed subtree was entirely
unchecked before the round trip (the tree satisfying the derived-state
invariant).  Without that proviso the round trip forces the whole subtree to
unchecked and is not a restoration. -/
theorem check_uncheck_roundtrip (p : List Nat) (t sub : TreeItem)
    (hsub : subtreeAt p t = some sub)
    (hall : allState CheckState.unchecked sub = true)
    (hc : consistent t = true) :
    updateCheckboxes p CheckState.unchecked
      (updateCheckboxes p CheckState.checked t) = t := by
  induction p generalizing t with
  | nil =>
      simp [subtreeAt] at hsub
      subst hsub
      show setAll CheckState.unchecked (setAll CheckState.checked t) = t
      rw [setAll_setAll, setAll_of_allState hall]
  | cons i p ih =>
      cases t with
      | leaf n l st => simp [subtreeAt] at hsub
      | interior n st cs =>
          cases hg : getChildF cs i with
          | none => simp [subtreeAt, hg] at hsub
          | some c =>
              simp [subtreeAt, hg] at hsub
              simp [consistent] at hc
              have hcc : consistent c = true := consistent_of_getChildF hc.2 hg
              have hrt : updateCheckboxes p CheckState.unchecked
                  (updateCheckboxes p CheckState.checked c) = c := ih c hsub hcc
              have hg1 := getChildF_setChildF hg (updateCheckboxes p CheckState.checked c)
              simp [updateCheckboxes, hg, hg1, setChildF_setChildF, hrt,
                setChildF_getChildF hg]
              exact hc.1.symm

/-- Witness for C4 amended: the example tree (all unchecked), round-tripping
the directory node. -/
theorem check_uncheck_roundtrip_witness :
    subtreeAt [1] exampleTree =
        some (TreeItem.interior "dir" CheckState.unchecked
          (.cons (.leaf "b.txt" 200 CheckState.unchecked)
            (.cons (.leaf "c.txt" 50 CheckState.unchecked) .nil))) ∧
      allState CheckState.unchecked
          (TreeItem.interior "dir" CheckState.unchecked
            (.cons (.leaf "b.txt" 200 CheckState.unchecked)
              (.cons (.leaf "c.txt" 50 CheckState.unchecked) .nil))) = true ∧
      consistent exampleTree = true ∧
      updateCheckboxes [1] CheckState.unchecked
          (updateCheckboxes [1] CheckState.checked exampleTree) = exampleTree :=
  ⟨rfl, by decide, by decide,
    check_uncheck_roundtrip [1] exampleTree
      (TreeItem.interior "dir" CheckState.unchecked
        (.cons (.leaf "b.txt" 200 CheckState.unchecked)
          (.cons (.leaf "c.txt" 50 CheckState.unchecked) .nil))) rfl (by decide) (by decide)⟩

/-- C9: the selection summary of `_update_selection_label` returns (leaf
count, total size) on a tree whose every leaf is checked and (0, 0) on a tree
whose every leaf is unchecked; on the spec's example tree, checking `dir`
yields (2 files, 250 bytes) with the root partially checked, and then
checking `a.txt` yields (3 files, 350 bytes) with the root checked. -/
theorem selected_leaves_summary :
    (∀ t : TreeItem, allLeavesState CheckState.checked t = true →
        selectedLeaves t = (leafCount t, totalSize t)) ∧
      (∀ t : TreeItem, allLeavesState CheckState.unchecked t = true →
        selectedLeaves t = (0, 0)) ∧
      (selectedLeaves exampleAfterDir = (2, 250) ∧
        stateOf exampleAfterDir = CheckState.partiallyChecked) ∧
      (selectedLeaves exampleAfterBoth = (3, 350) ∧
        stateOf exampleAfterBoth = CheckState.checked) :=
  ⟨fun _ h => selectedLeaves_allChecked h,
   fun _ h => selectedLeaves_allUnchecked h,
   ⟨rfl, rfl⟩, ⟨rfl, rfl⟩⟩

/-- Witness for C9: the all-checked and the all-unchecked example tree. -/
theorem selected_leaves_summary_witness :
    allLeavesState CheckState.checked (setAll CheckState.checked exampleTree) = true ∧
      selectedLeaves (setAll CheckState.checked exampleTree) =
        (leafCount (setAll CheckState.checked exampleTree),
         totalSize (setAll CheckState.checked exampleTree)) ∧
      allLeavesState CheckState.unchecked exampleTree = true ∧
      selectedLeaves exampleTree = (0, 0) :=
  ⟨by decide, selected_leaves_summary.1 _ (by decide),
   by decide, selected_leaves_summary.2.1 _ (by decide)⟩

/-! ## Lemmas about the torrent list -/

theorem addTorrentItem_nil (s : TorrentState) : addTorrentItem s [] = [⟨s, false⟩] := rfl

theorem addTorrentItem_cons (s : TorrentState) (e : TorrentListWidgetItem)
    (es : List TorrentListWidgetItem) :
    addTorrentItem s (e :: es) =
      if s.suggestedName < e.state.suggestedName then ⟨s, false⟩ :: e :: es
      else e :: addTorrentItem s es := by
  by_cases h : s.suggestedName < e.state.suggestedName <;>
    simp [addTorrentItem, itemsUpper, insertAt, h]

theorem mem_addTorrentItem {s : TorrentState} {b : TorrentListWidgetItem}
    {l : List TorrentListWidgetItem} (hb : b ∈ addTorrentItem s l) :
    b = ⟨s, false⟩ ∨ b ∈ l := by
  induction l with
  | nil =>
      rw [addTorrentItem_nil] at hb
      simp at hb
      exact Or.inl hb
  | cons e es ih =>
      rw [addTorrentItem_cons] at hb
      by_cases h : s.suggestedName < e.state.suggestedName
      · simp [h] at hb
        rcases hb with hb | hb | hb
        · exact Or.inl hb
        · exact Or.inr (by simp [hb])
        · exact Or.inr (by simp [hb])
      · simp [h] at hb
        rcases hb with hb | hb
        · exact Or.inr (by simp [hb])
        · rcases ih hb with hb' | hb'
          · exact Or.inl hb'
          · exact Or.inr (by simp [hb'])

theorem addTorrentItem_pairwise {s : TorrentState} {l : List TorrentListWidgetItem}
    (h : List.Pairwise (fun a b => a.state.suggestedName ≤ b.state.suggestedName) l) :
    List.Pairwise (fun a b => a.state.suggestedName ≤ b.state.suggestedName)
      (addTorrentItem s l) := by
  induction l with
  | nil => simp [addTorrentItem_nil]
  | cons e es ih =>
      rw [List.pairwise_cons] at h
      rw [addTorrentItem_cons]
      by_cases hlt : s.suggestedName < e.state.suggestedName
      · simp only [hlt, if_true]
        rw [List.pairwise_cons]
        refine ⟨?_, List.pairwise_cons.mpr h⟩
        intro b hb
        rcases List.mem_cons.mp hb with hb | hb
        · subst hb
          exact le_of_lt hlt
        · exact le_trans (le_of_lt hlt) (h.1 b hb)
      · simp only [hlt, if_false]
        rw [List.pairwise_cons]
        refine ⟨?_, ih h.2⟩
        intro b hb
        rcases mem_addTorrentItem hb with hb' | hb'
        · subst hb'
          exact le_of_not_lt hlt
        · exact h.1 b hb'

theorem addTorrentItem_decomp {s : TorrentState} {l : List TorrentListWidgetItem}
    (h : List.Pairwise (fun a b => a.state.suggestedName ≤ b.state.suggestedName) l) :
    ∃ l₁ l₂, addTorrentItem s l = l₁ ++ ⟨s, false⟩ :: l₂ ∧ l = l₁ ++ l₂ ∧
      (∀ b ∈ l₁, b.state.suggestedName ≤ s.suggestedName) ∧
      (∀ b ∈ l₂, s.suggestedName < b.state.suggestedName) := by
  induction l with
  | nil => exact ⟨[], [], by simp [addTorrentItem_nil], by simp, by simp, by simp⟩
  | cons e es ih =>
      rw [List.pairwise_cons] at h
      by_cases hlt : s.suggestedName < e.state.suggestedName
      · refine ⟨[], e :: es, by rw [addTorrentItem_cons]; simp [hlt], by simp, by simp, ?_⟩
        intro b hb
        rcases List.mem_cons.mp hb with hb | hb
        · subst hb
          exact hlt
        · exact lt_of_lt_of_le hlt (h.1 b hb)
      · obtain ⟨l₁, l₂, h1, h2, h3, h4⟩ := ih h.2
        refine ⟨e :: l₁, l₂, ?_, by simp [h2], ?_, h4⟩
        · rw [addTorrentItem_cons]
          simp [hlt, h1]
        · intro b hb
          rcases List.mem_cons.mp hb with hb | hb
          · subst hb
            exact le_of_not_lt hlt
          · exact h3 b hb

theorem applyOp_pairwise {l : List TorrentListWidgetItem} (op : CollectionOp)
    (h : List.Pairwise (fun a b => a.state.suggestedName ≤ b.state.suggestedName) l) :
    List.Pairwise (fun a b => a.state.suggestedName ≤ b.state.suggestedName)
      (applyOp l op) := by
  cases op with
  | insert s => exact addTorrentItem_pairwise h
  | remove hash =>
      simp only [applyOp, removeTorrentItem]
      by_cases hm : l.any (fun e => e.state.infoHash == hash)
      · simp only [hm, if_true]
        exact h.sublist (List.eraseP_sublist l)
      · simp only [hm, if_false]
        exact h

theorem foldl_applyOp_pairwise (ops : List CollectionOp)
    (l : List TorrentListWidgetItem)
    (h : List.Pairwise (fun a b => a.state.suggestedName ≤ b.state.suggestedName) l) :
    List.Pairwise (fun a b => a.state.suggestedName ≤ b.state.suggestedName)
      (ops.foldl applyOp l) := by
  induction ops generalizing l with
  | nil => exact h
  | cons op ops ih => exact ih (applyOp l op) (applyOp_pairwise op h)

theorem controlActionTriggered_submitted_mem (sel : Nat → Bool)
    (l : List TorrentListWidgetItem) :
    ∀ h ∈ (controlActionTriggered sel l).1,
      h ∈ l.map (fun e => e.state.infoHash) := by
  induction l with
  | nil => simp [controlActionTriggered]
  | cons x xs ih =>
      intro h hh
      cases hc : (sel x.state.infoHash && !x.waiting) with
      | true =>
          simp only [controlActionTriggered, hc, if_true] at hh
          rcases List.mem_cons.mp hh with hh | hh
          · simp [hh]
          · simp only [List.map_cons, List.mem_cons]
            exact Or.inr (ih h hh)
      | false =>
          simp only [controlActionTriggered, hc, Bool.false_eq_true,
            if_false] at hh
          simp only [List.map_cons, List.mem_cons]
          exact Or.inr (ih h hh)

theorem controlActionTriggered_waiting_skipped (sel : Nat → Bool)
    {l : List TorrentListWidgetItem}
    (hnd : (l.map (fun e => e.state.infoHash)).Nodup)
    {e : TorrentListWidgetItem} (he : e ∈ l) (hw : e.waiting = true) :
    e.state.infoHash ∉ (controlActionTriggered sel l).1 ∧
      e ∈ (controlActionTriggered sel l).2 := by
  induction l with
  | nil => simp at he
  | cons x xs ih =>
      simp only [List.map_cons, List.nodup_cons] at hnd
      rcases List.mem_cons.mp he with he' | he'
      · subst he'
        have hc : (sel e.state.infoHash && !e.waiting) = false := by simp [hw]
        simp only [controlActionTriggered, hc, Bool.false_eq_true, if_false]
        refine ⟨?_, by simp⟩
        intro hmem
        exact hnd.1 (controlActionTriggered_submitted_mem sel xs _ hmem)
      · have hih := ih hnd.2 he'
        have hne : e.state.infoHash ≠ x.state.infoHash := by
          intro hEq
          exact hnd.1 (hEq ▸ List.mem_map_of_mem (fun y => y.state.infoHash) he')
        cases hc : (sel x.state.infoHash && !x.waiting) with
        | true =>
            simp only [controlActionTriggered, hc, if_true]
            refine ⟨?_, by simp [hih.2]⟩
            intro hmem
            rcases List.mem_cons.mp hmem with hmem | hmem
            · exact hne hmem
            · exact hih.1 hmem
        | false =>
            simp only [controlActionTriggered, hc, Bool.false_eq_true, if_false]
            exact ⟨hih.1, by simp [hih.2]⟩

theorem controlActionTriggered_submitted_marked (sel : Nat → Bool)
    (l : List TorrentListWidgetItem) :
    ∀ h ∈ (controlActionTriggered sel l).1,
      ∃ e ∈ (controlActionTriggered sel l).2,
        e.state.infoHash = h ∧ e.waiting = true := by
  induction l with
  | nil => simp [controlActionTriggered]
  | cons x xs ih =>
      intro h hh
      cases hc : (sel x.state.infoHash && !x.waiting) with
      | true =>
          simp only [controlActionTriggered, hc, if_true] at hh ⊢
          rcases List.mem_cons.mp hh with hh | hh
          · exact ⟨{ x with waiting := true }, by simp, by simp [hh], rfl⟩
          · obtain ⟨e, he, h1, h2⟩ := ih h hh
            exact ⟨e, by simp [he], h1, h2⟩
      | false =>
          simp only [controlActionTriggered, hc, Bool.false_eq_true,
            if_false] at hh ⊢
          obtain ⟨e, he, h1, h2⟩ := ih h hh
          exact ⟨e, by simp [he], h1, h2⟩

theorem updateTorrentItem_mem {s : TorrentState} {l : List TorrentListWidgetItem}
    {e : TorrentListWidgetItem} (he : e ∈ l) (hh : e.state.infoHash = s.infoHash) :
    ({ state := s,
       waiting := if e.state.paused != s.paused then false else e.waiting } :
      TorrentListWidgetItem) ∈ updateTorrentItem s l := by
  have hany : l.any (fun x => x.state.infoHash == s.infoHash) = true :=
    List.any_eq_true.mpr ⟨e, he, by simp [hh]⟩
  simp only [updateTorrentItem, hany, if_true]
  exact List.mem_map.mpr ⟨e, he, by simp [hh]⟩

/-! ## Claim theorems for the torrent list and the pending flag -/

/-- C7: after any interleaving of `torrent_added` inserts and
`torrent_removed` removals starting from the empty list, adjacent items are
ordered by `suggested_name`; and on a sorted list an insert places the new
item after every item whose name is less than or equal to its own — equal
keys end up before it (stable tie-break), the strictly greater ones after
it. -/
theorem ordered_collection_invariant :
    (∀ ops : List CollectionOp,
        List.Chain' (fun a b => a.state.suggestedName ≤ b.state.suggestedName)
          (runOps ops)) ∧
      (∀ (s : TorrentState) (l : List TorrentListWidgetItem),
        List.Pairwise (fun a b => a.state.suggestedName ≤ b.state.suggestedName) l →
          ∃ l₁ l₂, addTorrentItem s l = l₁ ++ ⟨s, false⟩ :: l₂ ∧ l = l₁ ++ l₂ ∧
            (∀ b ∈ l₁, b.state.suggestedName ≤ s.suggestedName) ∧
            (∀ b ∈ l₂, s.suggestedName < b.state.suggestedName)) :=
  ⟨fun ops => (foldl_applyOp_pairwise ops [] (by simp)).chain',
   fun _ _ h => addTorrentItem_decomp h⟩

/-- Witness for C7: inserting a tying name into a sorted singleton. -/
theorem ordered_collection_invariant_witness :
    List.Pairwise (fun a b => a.state.suggestedName ≤ b.state.suggestedName)
        [(⟨⟨1, "b", false⟩, false⟩ : TorrentListWidgetItem)] ∧
      ∃ l₁ l₂,
        addTorrentItem ⟨2, "b", false⟩
            [(⟨⟨1, "b", false⟩, false⟩ : TorrentListWidgetItem)] =
          l₁ ++ ⟨⟨2, "b", false⟩, false⟩ :: l₂ ∧
        [(⟨⟨1, "b", false⟩, false⟩ : TorrentListWidgetItem)] = l₁ ++ l₂ ∧
        (∀ b ∈ l₁, b.state.suggestedName ≤ "b") ∧
        (∀ b ∈ l₂, "b" < b.state.suggestedName) :=
  ⟨by simp, ordered_collection_invariant.2 ⟨2, "b", false⟩ _ (by simp)⟩

/-- C8: `add_torrent_files` rejects a torrent whose info hash is already a
key of `_torrent_to_item`, reporting the `ValueError` and leaving the
collection — the existing entry included — untouched. -/
theorem duplicate_insert_rejected (s : TorrentState)
    (l : List TorrentListWidgetItem) (e : TorrentListWidgetItem)
    (he : e ∈ l) (hh : e.state.infoHash = s.infoHash) :
    addTorrentFile s l = (some "This torrent is already added", l) := by
  have hany : l.any (fun x => x.state.infoHash == s.infoHash) = true :=
    List.any_eq_true.mpr ⟨e, he, by simp [hh]⟩
  simp [addTorrentFile, hany]

/-- Witness for C8: re-adding the one torrent already present. -/
theorem duplicate_insert_rejected_witness :
    (⟨⟨1, "a", false⟩, false⟩ : TorrentListWidgetItem) ∈
        [(⟨⟨1, "a", false⟩, false⟩ : TorrentListWidgetItem)] ∧
      addTorrentFile ⟨1, "a", true⟩
          [(⟨⟨1, "a", false⟩, false⟩ : TorrentListWidgetItem)] =
        (some "This torrent is already added",
          [(⟨⟨1, "a", false⟩, false⟩ : TorrentListWidgetItem)]) :=
  ⟨by decide,
    duplicate_insert_rejected ⟨1, "a", true⟩ _ ⟨⟨1, "a", false⟩, false⟩
      (by decide) rfl⟩

/-- C10: a state update whose info hash is not in the collection is a silent
no-op — `_update_torrent_item` returns before touching any widget or flag —
while `_remove_torrent_item` on the same absent hash raises a `KeyError`. -/
theorem update_absent_silent_noop (s : TorrentState)
    (l : List TorrentListWidgetItem)
    (h : ∀ e ∈ l, e.state.infoHash ≠ s.infoHash) :
    updateTorrentItem s l = l ∧
      removeTorrentItem s.infoHash l = .error "KeyError" := by
  have hany : l.any (fun e => e.state.infoHash == s.infoHash) = false := by
    simp only [List.any_eq_false]
    intro e he
    simpa using h e he
  constructor
  · simp [updateTorrentItem, hany]
  · simp [removeTorrentItem, hany]

/-- Witness for C10: an update and a removal for hash 2 against a collection
holding only hash 1. -/
theorem update_absent_silent_noop_witness :
    (∀ e ∈ [(⟨⟨1, "a", false⟩, false⟩ : TorrentListWidgetItem)],
        e.state.infoHash ≠ (2 : Nat)) ∧
      updateTorrentItem ⟨2, "b", false⟩
          [(⟨⟨1, "a", false⟩, false⟩ : TorrentListWidgetItem)] =
        [(⟨⟨1, "a", false⟩, false⟩ : TorrentListWidgetItem)] ∧
      removeTorrentItem 2 [(⟨⟨1, "a", false⟩, false⟩ : TorrentListWidgetItem)] =
        .error "KeyError" :=
  ⟨by decide,
    update_absent_silent_noop ⟨2, "b", false⟩ _ (by decide)⟩

/-- C6 counterexample: the pending flag is NOT cleared by the next state
update for the target when the update's `paused` equals the displayed one —
`_update_torrent_item` clears `waiting_control_action` only when `paused`
changed.  Here the item with hash 1 is waiting, the update carries the same
`paused = false`, and the flag stays set. -/
theorem pending_flag_not_cleared :
    updateTorrentItem ⟨1, "t", false⟩
        [(⟨⟨1, "t", false⟩, true⟩ : TorrentListWidgetItem)] ≠
      [(⟨⟨1, "t", false⟩, false⟩ : TorrentListWidgetItem)] := by decide

/-- C6 amended: when actions are submitted, (1) an item whose waiting flag is
set is skipped — its target is not submitted again and the item is left
unchanged; (2) every submitted target's item carries the waiting flag in the
same synchronous step; (3) a state update for a present target clears the
flag exactly when the update's `paused` differs from the displayed state's
(`if paused changed then false else old flag`), not on every update. -/
theorem pending_flag_protocol :
    (∀ (sel : Nat → Bool) (l : List TorrentListWidgetItem),
        (l.map (fun e => e.state.infoHash)).Nodup →
          ∀ e ∈ l, e.waiting = true →
            e.state.infoHash ∉ (controlActionTriggered sel l).1 ∧
              e ∈ (controlActionTriggered sel l).2) ∧
      (∀ (sel : Nat → Bool) (l : List TorrentListWidgetItem),
        ∀ h ∈ (controlActionTriggered sel l).1,
          ∃ e ∈ (controlActionTriggered sel l).2,
            e.state.infoHash = h ∧ e.waiting = true) ∧
      (∀ (s : TorrentState) (l : List TorrentListWidgetItem)
          (e : TorrentListWidgetItem), e ∈ l → e.state.infoHash = s.infoHash →
          ({ state := s,
             waiting := if e.state.paused != s.paused then false else e.waiting } :
            TorrentListWidgetItem) ∈ updateTorrentItem s l) :=
  ⟨fun sel _ hnd _ he hw => controlActionTriggered_waiting_skipped sel hnd he hw,
   fun sel l => controlActionTriggered_submitted_marked sel l,
   fun _ _ _ he hh => updateTorrentItem_mem he hh⟩

/-- Witness for C6 amended: one waiting item, everything selected — nothing
is submitted and the item is untouched. -/
theorem pending_flag_protocol_witness :
    ([(⟨⟨1, "a", false⟩, true⟩ : TorrentListWidgetItem)].map
        (fun e => e.state.infoHash)).Nodup ∧
      ((1 : Nat) ∉
          (controlActionTriggered (fun _ => true)
            [(⟨⟨1, "a", false⟩, true⟩ : TorrentListWidgetItem)]).1 ∧
        (⟨⟨1, "a", false⟩, true⟩ : TorrentListWidgetItem) ∈
          (controlActionTriggered (fun _ => true)
            [(⟨⟨1, "a", false⟩, true⟩ : TorrentListWidgetItem)]).2) :=
  ⟨by decide,
    pending_flag_protocol.1 (fun _ => true)
      [(⟨⟨1, "a", false⟩, true⟩ : TorrentListWidgetItem)] (by decide)
      (⟨⟨1, "a", false⟩, true⟩ : TorrentListWidgetItem) (by decide) rfl⟩

/-! ## Claim theorems for the dispatcher, main, and stop -/

/-- C5 counterexample: a failure other than the invalid-state `ValueError` is
NOT surfaced to the foreground as a named error — it ends in the discarded
future and no user-visible error is produced. -/
theorem other_failure_not_surfaced :
    (controlActionDispatch (ActionResult.failure "ConnectionError")).futureOutcome =
        CoroutineOutcome.raised "ConnectionError" ∧
      (controlActionDispatch (ActionResult.failure "ConnectionError")).foregroundError =
        none :=
  ⟨rfl, rfl⟩

/-- C5 amended: the invalid-state `ValueError` is swallowed silently by
`_invoke_control_action`; any other failure is likewise invisible to the
foreground — it terminates the dispatched coroutine and is recorded only in
the future that `_control_action_triggered` discards, so no failure of a
control action produces a user-visible error. -/
theorem control_action_error_handling :
    invokeControlAction ActionResult.invalidState = CoroutineOutcome.completed ∧
      invokeControlAction ActionResult.ok = CoroutineOutcome.completed ∧
      (∀ n, invokeControlAction (ActionResult.failure n) = CoroutineOutcome.raised n) ∧
      (∀ r, (controlActionDispatch r).foregroundError = none) :=
  ⟨rfl, rfl, fun _ => rfl, fun _ => rfl⟩

/-- C2 counterexample: an invocation with file paths whose probe connects
still shows the window, still starts its own `ControlManagerThread` (engine
and all), and still enters the Qt event loop instead of terminating. -/
theorem forwarding_process_still_hosts :
    MainEvent.showWindow ∈ mainTrace ["a.torrent"] true ∧
      MainEvent.startControlThread ∈ mainTrace ["a.torrent"] true ∧
      MainEvent.forwardPaths ["a.torrent"] ∈ mainTrace ["a.torrent"] true ∧
      (mainTrace ["a.torrent"] true).getLast? = some MainEvent.enterEventLoop := by
  decide

/-- C2 amended: every invocation shows the window and starts its own
Lifecycle Manager before probing; when it carries file paths it additionally
probes and, exactly when the probe connects, forwards the paths — but the
probe's result is discarded and the process continues into its own event
loop rather than exiting. -/
theorem main_trace_shape :
    ∀ (fs : List String) (r : Bool),
      (∃ rest, mainTrace fs r =
          MainEvent.showWindow :: MainEvent.startControlThread :: rest) ∧
        (MainEvent.forwardPaths fs ∈ mainTrace fs r ↔ fs ≠ [] ∧ r = true) ∧
        (mainTrace fs r).getLast? = some MainEvent.enterEventLoop := by
  intro fs r
  refine ⟨⟨_, rfl⟩, ?_, ?_⟩
  · cases fs with
    | nil => simp [mainTrace]
    | cons f fs => cases r <;> simp [mainTrace]
  · cases fs with
    | nil => rfl
    | cons f fs => cases r <;> rfl

/-- C3 counterexample: with both callers about to enter `stop()`, the
schedule in which caller A checks, sets the flag and schedules the shutdown,
after which caller B checks, makes B return immediately — before the
dedicated thread has exited — so it is false that both callers return only
after the thread has fully exited. -/
theorem second_stop_returns_before_exit :
    (runStop stopStart
        [StopAgent.callerA, StopAgent.callerA, StopAgent.callerA,
          StopAgent.callerB]).pc1 = StopPc.done ∧
      (runStop stopStart
        [StopAgent.callerA, StopAgent.callerA, StopAgent.callerA,
          StopAgent.callerB]).obs1 = false ∧
      (runStop stopStart
        [StopAgent.callerA, StopAgent.callerA, StopAgent.callerA,
          StopAgent.callerB]).threadExited = false ∧
      (runStop stopStart
        [StopAgent.callerA, StopAgent.callerA, StopAgent.callerA,
          StopAgent.callerB]).shutdowns = 1 := by decide

theorem stopStep_preserves_inv {st : StopSystem} (h : StopInv st)
    (a : StopAgent) : StopInv (stopStep st a) := by
  obtain ⟨h1, h2, h3, h4, h5⟩ := h
  cases a with
  | callerA =>
      rcases h4 with h4 | ⟨h4, h4b, h4c⟩
      · cases he : st.threadExited <;>
          simp [StopInv, stopStep, stopCallerStep, h1, h2, h3, h4, h5, he]
      · simp [StopInv, stopStep, stopCallerStep, h1, h2, h3, h4, h4b, h4c, h5]
  | callerB =>
      rcases h5 with h5 | h5 <;>
        · simp [StopInv, stopStep, stopCallerStep, h1, h2, h3, h5]
          simpa using h4
  | loopThread =>
      rcases h4 with h4 | ⟨h4, h4b, h4c⟩
      · cases he : st.threadExited <;>
          simp [StopInv, stopStep, stopLoopStep, h1, h2, h3, h4, h5, he]
      · simp [StopInv, stopStep, stopLoopStep, h1, h2, h3, h4, h4b, h4c, h5]

theorem runStop_inv (sched : List StopAgent) (st : StopSystem)
    (h : StopInv st) : StopInv (runStop st sched) := by
  induction sched generalizing st with
  | nil => exact h
  | cons a sched ih => exact ih (stopStep st a) (stopStep_preserves_inv h a)

/-- C3 amended: a second `stop()` call made while a stop is already in
flight (the `_stopping` flag set, one shutdown scheduled) is a no-op that
returns immediately: under every interleaving exactly one shutdown sequence
exists, the second caller goes straight from its check to returned, and the
first caller returns only after the dedicated thread has exited — but the
second caller may return before the thread exits, so it is not the case that
both callers observe completion. -/
theorem stop_in_flight_second_call_noop :
    ∀ sched : List StopAgent,
      (runStop stopInFlight sched).shutdowns = 1 ∧
        ((runStop stopInFlight sched).pc1 = StopPc.atCheck ∨
          (runStop stopInFlight sched).pc1 = StopPc.done) ∧
        ((runStop stopInFlight sched).pc0 = StopPc.done →
          (runStop stopInFlight sched).threadExited = true ∧
            (runStop stopInFlight sched).obs0 = true) := by
  intro sched
  have h := runStop_inv sched stopInFlight
    ⟨rfl, rfl, rfl, Or.inl rfl, Or.inl rfl⟩
  refine ⟨h.2.2.1, h.2.2.2.2, ?_⟩
  intro hd
  rcases h.2.2.2.1 with h4 | ⟨_, h4b, h4c⟩
  · rw [h4] at hd
    cases hd
  · exact ⟨h4c, h4b⟩

/-- Witness for C3 amended: the schedule where the loop thread finishes the
shutdown and then caller A leaves `wait()`. -/
theorem stop_in_flight_second_call_noop_witness :
    (runStop stopInFlight [StopAgent.loopThread, StopAgent.callerA]).pc0 =
        StopPc.done ∧
      ((runStop stopInFlight
          [StopAgent.loopThread, StopAgent.callerA]).threadExited = true ∧
        (runStop stopInFlight [StopAgent.loopThread, StopAgent.callerA]).obs0 =
          true) :=
  ⟨by decide,
    (stop_in_flight_second_call_noop
      [StopAgent.loopThread, StopAgent.callerA]).2.2 (by decide)⟩
